import Mathlib

/-!
Verification of the natural-language specification of the
`opentelemetry-log-collection` repository (recombine transformer and
journald input) against a shallow embedding of its Go source.

Part 1: journald input operator,
`operator/builtin/input/journald/journald.go`.
-/

/-- Modelled from the spec: the ordered severity enum of the `entry`
package (spec section 3, Data Model), whose source is not part of this
repository snapshot. Order: Default, Trace, Debug, Info, Info2, Warn,
Error, Error2, Error3, Fatal. -/
inductive Severity where
  | default
  | trace
  | debug
  | info
  | info2
  | warn
  | error
  | error2
  | error3
  | fatal
deriving DecidableEq, Repr

/-- A decoded JSON value as produced by `jsoniter.Unmarshal` into
`map[string]interface{}`: strings stay strings, numbers decode to
`float64` (modelled as `Int`, sufficient for integral JSON numbers),
byte sequences to `[]byte`, JSON `null` to `nil`. -/
inductive JVal where
  | str (s : String)
  | num (n : Int)
  | bytes (bs : List Nat)
  | null
deriving DecidableEq, Repr

/-- A decoded journald JSON line: the `map[string]interface{}` body.
Go maps have unique keys and unspecified iteration order; the model
fixes the order as the list order. -/
abbrev JObj := List (String × JVal)

/-- Standard base64 alphabet used by `base64.StdEncoding`. -/
def base64Alphabet : List Char :=
  "ABCDEFGHIJKLMNOPQRSTUVWXYZabcdefghijklmnopqrstuvwxyz0123456789+/".toList

/-- One base64 digit. -/
def b64Char (n : Nat) : Char := base64Alphabet.getD n 'A'

/-- `base64.StdEncoding.EncodeToString`: RFC 4648 with padding. -/
def base64Encode : List Nat → String
  | [] => ""
  | [b1] =>
      String.mk [b64Char (b1 / 4), b64Char (b1 % 4 * 16), '=', '=']
  | [b1, b2] =>
      String.mk [b64Char (b1 / 4), b64Char (b1 % 4 * 16 + b2 / 16),
                 b64Char (b2 % 16 * 4), '=']
  | b1 :: b2 :: b3 :: rest =>
      String.mk [b64Char (b1 / 4), b64Char (b1 % 4 * 16 + b2 / 16),
                 b64Char (b2 % 16 * 4 + b3 / 64), b64Char (b3 % 64)] ++
      base64Encode rest

/-- Digit run of `strconv` integer parsing: at least one character and
all characters decimal digits. -/
def digitsToNat : List Char → Option Nat
  | [] => none
  | cs =>
      cs.foldl (fun acc c =>
        match acc with
        | none => none
        | some n => if c.isDigit then some (n * 10 + (c.toNat - 48)) else none)
        (some 0)

/-- `strconv.ParseInt(s, 10, 64)` (and `strconv.Atoi`, which equals it
on 64-bit platforms): an optional single sign followed by at least one
decimal digit; values outside the signed 64-bit range are an error. -/
def goParseInt (s : String) : Option Int :=
  let p : Int × List Char :=
    match s.toList with
    | '+' :: r => (1, r)
    | '-' :: r => (-1, r)
    | r => (1, r)
  match digitsToNat p.2 with
  | none => none
  | some n =>
      let v : Int := p.1 * n
      if v < -(2 ^ 63) ∨ 2 ^ 63 - 1 < v then none else some v

/-- The fixed `severityMapping` array of `journald.go` (index 0..7). -/
def severityMapping : Nat → Severity
  | 0 => .fatal
  | 1 => .error3
  | 2 => .error2
  | 3 => .error
  | 4 => .warn
  | 5 => .info2
  | 6 => .info
  | _ => .debug

/-- The fixed `severityText` array of `journald.go` (index 0..7). -/
def severityText : Nat → String
  | 0 => "emerg"
  | 1 => "alert"
  | 2 => "crit"
  | 3 => "err"
  | 4 => "warning"
  | 5 => "notice"
  | 6 => "info"
  | _ => "debug"

/-- Outcome of `addSeverity`. Go's `sev.(string)` is an unchecked type
assertion: on a non-string value it panics instead of returning an
error, which the model records as `panicked`. -/
inductive SevResult where
  | ok (sev : Severity) (text : String)
  | error
  | panicked
deriving DecidableEq, Repr

/-- `addSeverity` from `journald.go`: `strconv.Atoi(sev.(string))`,
error when the string is not an integer or the integer is outside
0..7, otherwise look up the two fixed tables. -/
def addSeverity (sev : JVal) : SevResult :=
  match sev with
  | .str s =>
      match goParseInt s with
      | none => .error
      | some n =>
          if n < 0 ∨ 7 < n then .error
          else .ok (severityMapping n.toNat) (severityText n.toNat)
  | _ => .panicked

/-- The Entry assembled by `parseJournalEntry`: body is the raw
`MESSAGE` value, timestamp in nanoseconds, severity with text, and the
string attributes accumulated from the remaining keys. `NewEntry` is
modelled from the spec (operator framework, outside this snapshot): it
yields an entry with the given body, default severity and no
attributes. -/
structure JEntry where
  body : JVal
  ts : Int
  sev : Severity
  sevText : String
  attrs : List (String × String)
deriving DecidableEq, Repr

/-- Outcome of `parseJournalEntry`: an entry plus the cursor string,
an error (the line is then skipped with a warning), or a panic raised
by the unchecked type assertion inside `addSeverity`. -/
inductive ParseResult where
  | ok (e : JEntry) (cursor : String)
  | error
  | panicked
deriving DecidableEq, Repr

/-- Go map read `body[k]`. -/
def lookupJ (m : JObj) (k : String) : Option JVal :=
  match m.find? (fun p => p.1 = k) with
  | some p => some p.2
  | none => none

/-- Go `delete(body, k)`. -/
def eraseJ (m : JObj) (k : String) : JObj :=
  m.filter (fun p => ¬ p.1 = k)

/-- `convertField` from `journald.go`: byte slices are base64-encoded,
`nil` becomes the empty string, anything else is rendered with
`fmt.Sprintf("%v", val)` (identity on strings, decimal on integral
numbers). -/
def convertField (val : JVal) : String :=
  match val with
  | .bytes bs => base64Encode bs
  | .null => ""
  | .str s => s
  | .num n => toString n

/-- The `for k, v := range body` loop at the end of `parseJournalEntry`:
`PRIORITY` goes through `addSeverity` (an error aborts the parse, a
non-string value panics); every other key whose converted value is
non-empty is added as an attribute. -/
def addFields (cursor : String) (e : JEntry) : JObj → ParseResult
  | [] => .ok e cursor
  | (k, v) :: rest =>
      if k = "PRIORITY" then
        match addSeverity v with
        | .panicked => .panicked
        | .error => .error
        | .ok s t => addFields cursor { e with sev := s, sevText := t } rest
      else
        let val := convertField v
        if val = "" then addFields cursor e rest
        else addFields cursor { e with attrs := e.attrs ++ [(k, val)] } rest

/-- `parseJournalEntry` from `journald.go`, acting on the decoded JSON
object (`jsoniter.Unmarshal` of the line is modelled as the given
map). It requires a string `__REALTIME_TIMESTAMP` parsing as an
integer (then deletes the key), a string `__CURSOR` (read, never
deleted), a `MESSAGE` (deleted, becomes the body); the timestamp is
the parsed microseconds times 1000 nanoseconds; the remaining keys go
through `addFields`. -/
def parseJournalEntry (m : JObj) : ParseResult :=
  match lookupJ m "__REALTIME_TIMESTAMP" with
  | none => .error
  | some tv =>
    match tv with
    | .str tss =>
      match goParseInt tss with
      | none => .error
      | some tsInt =>
        let m1 := eraseJ m "__REALTIME_TIMESTAMP"
        match lookupJ m1 "__CURSOR" with
        | none => .error
        | some cv =>
          match cv with
          | .str cursor =>
            match lookupJ m1 "MESSAGE" with
            | none => .error
            | some msg =>
              let m2 := eraseJ m1 "MESSAGE"
              addFields cursor
                { body := msg, ts := tsInt * 1000, sev := .default,
                  sevText := "", attrs := [] } m2
          | _ => .error
    | _ => .error

/-- Modelled from the spec: the `operator.Persister` (spec component
C4), an opaque key/value durable store whose `Set` succeeds; its
implementation is not part of this repository snapshot. -/
abbrev Persister := String → Option String

/-- The well-known persistence key `lastReadCursorKey`. -/
def lastReadCursorKey : String := "lastReadCursor"

/-- `persister.Set`. -/
def persisterSet (p : Persister) (k v : String) : Persister :=
  fun q => if q = k then some v else p q

/-- Observable actions of one iteration of the journald reader
goroutine, in program order. -/
inductive JEvent where
  | setCursor (c : String)
  | write (e : JEntry)
  | warn
  | panicked
deriving DecidableEq, Repr

/-- One iteration of the reader loop inside `Start` (journald.go
lines 168-186) for one line: a parse failure warns and continues
(nothing persisted, nothing written); a panic escapes the goroutine;
on success the cursor is persisted under `lastReadCursorKey` and then
the entry is written downstream, in that order. -/
def readerStep (p : Persister) (m : JObj) : Persister × List JEvent :=
  match parseJournalEntry m with
  | .error => (p, [.warn])
  | .panicked => (p, [.panicked])
  | .ok e c => (persisterSet p lastReadCursorKey c, [.setCursor c, .write e])

/-- The decoded form of the spec's concrete journald example line. -/
def exampleLine : JObj :=
  [("__REALTIME_TIMESTAMP", .str "1600000000000000"),
   ("__CURSOR", .str "c1"),
   ("MESSAGE", .str "hi"),
   ("PRIORITY", .str "3"),
   ("UNIT", .str "foo")]

/-- The Entry the code produces for `exampleLine`. -/
def exampleEntry : JEntry :=
  { body := .str "hi", ts := 1600000000000000000, sev := .error,
    sevText := "err",
    attrs := [("__CURSOR", "c1"), ("UNIT", "foo")] }

/-!
Part 2: recombine transformer,
`operator/builtin/transformer/recombine/recombine.go`.
-/

/-- An entry as seen by the recombine operator. `eid` is the entry's
identity (the pointer in Go); `readField` is the result of
`e.Read(r.combineField, &s)` (`none` when the read fails); `setOk`
says whether `e.Set(r.combineField, v)` succeeds (per the spec's field
path model, `Set` fails when a segment traverses a non-mapping);
`src` is the result of `e.Read(r.sourceIdentifier, &s)`; `exprRes` is
the outcome of running the compiled predicate on the entry (`none`
when `expr.Run` returns an error, `some b` for the boolean result
guaranteed by `expr.AsBool`); `ts` is `e.Timestamp` in the ticker's
clock. -/
structure REntry where
  eid : Nat
  readField : Option String
  setOk : Bool
  src : Option String
  exprRes : Option Bool
  ts : Nat
deriving DecidableEq, Repr

/-- The built `RecombineOperator`'s configuration-derived fields. The
compiled program is represented by `REntry.exprRes`; `onErrorSend`
models the transformer's `on_error` policy used by `HandleEntryError`
(spec section 4.1: `send` forwards the entry and returns nil, `drop`
returns the error). -/
structure ROp where
  matchFirstLine : Bool
  maxBatchSize : Nat
  maxSources : Nat
  overwriteWithOldest : Bool
  combineWith : String
  forceFlushTimeout : Nat
  onErrorSend : Bool
deriving DecidableEq, Repr

/-- The `batchMap` field: source key to ordered batch. Go map
iteration order is unspecified; the model fixes insertion order. -/
abbrev BatchMap := List (String × List REntry)

/-- Go map read `r.batchMap[source]`: a missing key reads as the nil
slice, whose length is 0. -/
def lookupB (m : BatchMap) (s : String) : List REntry :=
  match m.find? (fun p => p.1 = s) with
  | some p => p.2
  | none => []

/-- Go `_, ok := r.batchMap[source]`. -/
def containsB (m : BatchMap) (s : String) : Bool :=
  m.any (fun p => p.1 = s)

/-- Go map insertion of a fresh key (position in the model: appended). -/
def insertB (m : BatchMap) (s : String) (b : List REntry) : BatchMap :=
  m ++ [(s, b)]

/-- Go map update of an existing key. -/
def updateB (m : BatchMap) (s : String) (b : List REntry) : BatchMap :=
  m.map (fun p => if p.1 = s then (s, b) else p)

/-- Go `delete(r.batchMap, source)`. -/
def eraseB (m : BatchMap) (s : String) : BatchMap :=
  m.filter (fun p => ¬ p.1 = s)

/-- The `DefaultSourceIdentifier` sentinel. -/
def defaultSourceIdentifier : String := "DefaultSourceIdentifier"

/-- Source key computation in `Process`: a failed `Read` of the
source identifier, or an empty string, falls back to the sentinel. -/
def sourceOf (e : REntry) : String :=
  match e.src with
  | none => defaultSourceIdentifier
  | some s => if s = "" then defaultSourceIdentifier else s

/-- The join loop of `flushSource`: each entry whose `combine_field`
read succeeds contributes its value through `WriteString`, followed by
`combineWith` when its index is not the batch's last index
(`i != len(entries)-1`); an entry whose read fails is skipped by
`continue`, contributing nothing. Written recursively: an element is
at the last index exactly when it is the final element of the list. -/
def recombineJoin (op : ROp) : List REntry → String
  | [] => ""
  | [e] =>
      match e.readField with
      | some s => s
      | none => ""
  | e :: rest =>
      (match e.readField with
       | some s => s ++ op.combineWith
       | none => "") ++ recombineJoin op rest

/-- Values separated by `sep`: the separator appears strictly between
consecutive values. -/
def sepJoin (sep : String) : List String → String
  | [] => ""
  | [s] => s
  | s :: rest => s ++ sep ++ sepJoin sep rest

/-- The join as the spec's words describe it: the combine-field string
values of the batch, separated by `combine_with`, entries whose read
fails contributing neither a value nor a separator. Stated for
comparison with `recombineJoin` (the code's join). -/
def specJoin (op : ROp) (entries : List REntry) : String :=
  sepJoin op.combineWith (entries.filterMap REntry.readField)

/-- `flushSource` from `recombine.go`: no-op on an empty or absent
batch; otherwise pick `base` (`entries[0]` when overwriting with the
oldest, `entries[len-1]` otherwise), compute the join, `Set` it on
`base` (failure returns the error with the map untouched and nothing
written), `Write` the mutated base downstream and delete the key — in
one step. Emitted entries are the second component. -/
def flushSource (op : ROp) (m : BatchMap) (source : String) :
    Except Unit (BatchMap × List REntry) :=
  match lookupB m source with
  | [] => .ok (m, [])
  | e0 :: rest =>
      let entries := e0 :: rest
      let base := if op.overwriteWithOldest then e0 else entries.getLastD e0
      let joined := recombineJoin op entries
      if base.setOk then
        .ok (eraseB m source, [{ base with readField := some joined }])
      else
        .error ()

/-- `flushUncombined` from `recombine.go`: write every buffered entry
of every batch individually downstream, then replace the batch map by
a fresh empty map (the ticker reset is not part of the batch state). -/
def flushUncombined (m : BatchMap) : BatchMap × List REntry :=
  ([], m.foldr (fun p acc => p.2 ++ acc) [])

/-- All buffered entries of the map in the model's iteration order. -/
def allEntries (m : BatchMap) : List REntry :=
  m.foldr (fun p acc => p.2 ++ acc) []

/-- `addToBatch` from `recombine.go`. A previously unknown source is
first inserted with the entry as a singleton batch; if the key count
then reaches `maxSources`, everything (including the just-added entry)
is flushed uncombined. An existing source gets the entry appended; if
the batch length then reaches `maxBatchSize`, the source is flushed
combined (a flush error is logged and swallowed). -/
def addToBatch (op : ROp) (m : BatchMap) (e : REntry) (source : String) :
    BatchMap × List REntry :=
  if ¬ containsB m source then
    let m1 := insertB m source [e]
    if op.maxSources ≤ m1.length then flushUncombined m1
    else (m1, [])
  else
    let m1 := updateB m source (lookupB m source ++ [e])
    if op.maxBatchSize ≤ (lookupB m source ++ [e]).length then
      match flushSource op m1 source with
      | .ok r => r
      | .error _ => (m1, [])
    else (m1, [])

/-- Result of one `Process` call: the new batch map, the entries
written downstream during the call (in order), and whether `Process`
returned an error. -/
structure PResult where
  m : BatchMap
  emitted : List REntry
  errored : Bool
deriving DecidableEq, Repr

/-- `Process` from `recombine.go`. An expression-run error goes
through `HandleEntryError` (spec section 4.1): `send` forwards the
entry and reports success, `drop` emits nothing and reports the error.
Otherwise: on a match in first-line mode, flush the source (an error
returns immediately, the entry is not added) and then add the entry;
on a match in last-line mode, add then flush; otherwise just add. -/
def processEntry (op : ROp) (m : BatchMap) (e : REntry) : PResult :=
  match e.exprRes with
  | none =>
      if op.onErrorSend then ⟨m, [e], false⟩ else ⟨m, [], true⟩
  | some isMatch =>
      let s := sourceOf e
      if isMatch ∧ op.matchFirstLine then
        match flushSource op m s with
        | .error _ => ⟨m, [], true⟩
        | .ok (m1, em1) =>
            let r := addToBatch op m1 e s
            ⟨r.1, em1 ++ r.2, false⟩
      else if isMatch ∧ ¬ op.matchFirstLine then
        let r := addToBatch op m e s
        match flushSource op r.1 s with
        | .error _ => ⟨r.1, r.2, true⟩
        | .ok (m2, em2) => ⟨m2, r.2 ++ em2, false⟩
      else
        let r := addToBatch op m e s
        ⟨r.1, r.2, false⟩

/-- Feeding a finite sequence of entries to `Process`, one call after
the other, accumulating the entries written downstream. -/
def processList (op : ROp) (m : BatchMap) : List REntry → BatchMap × List REntry
  | [] => (m, [])
  | e :: rest =>
      let r := processEntry op m e
      let rr := processList op r.m rest
      (rr.1, r.emitted ++ rr.2)

/-- One pair of the ticker loop body in `flushLoop`: skip the source
when its last entry is younger than the flush timeout, otherwise flush
it (errors are logged and iteration continues). The batch value
`entries` is the pair captured by `range`; a key already flushed is
not revisited. An empty batch (which would panic in Go on
`entries[len(entries)-1]` and never occurs in reachable states) is
skipped. -/
def tickFlushGo (op : ROp) (now : Nat) (m : BatchMap) :
    List (String × List REntry) → BatchMap × List REntry
  | [] => (m, [])
  | (s, entries) :: rest =>
      match entries.getLast? with
      | none => tickFlushGo op now m rest
      | some last =>
          if (now : Int) - last.ts < op.forceFlushTimeout then
            tickFlushGo op now m rest
          else
            match flushSource op m s with
            | .error _ => tickFlushGo op now m rest
            | .ok (m1, em) =>
                let r := tickFlushGo op now m1 rest
                (r.1, em ++ r.2)

/-- One ticker tick over the whole batch map. -/
def tickFlush (op : ROp) (now : Nat) (m : BatchMap) :
    BatchMap × List REntry :=
  tickFlushGo op now m m

/-- Observable batch-map states of the recombiner, together with the
list of entries fed to `Process` so far: the states seen outside the
mutex-protected critical sections, starting from the fresh empty map
of `Build`, stepped by `Process` calls, ticker ticks, and the
uncombined flush performed by `Stop`. -/
inductive ReachState (op : ROp) : BatchMap → List REntry → Prop
  | init : ReachState op [] []
  | step {m es e} (h : ReachState op m es) :
      ReachState op (processEntry op m e).m (es ++ [e])
  | tick {m es} (now : Nat) (h : ReachState op m es) :
      ReachState op (tickFlush op now m).1 es
  | stop {m es} (h : ReachState op m es) :
      ReachState op (flushUncombined m).1 es

deriving instance DecidableEq for Except

/-- The combined Entry the spec describes for a batch under
`overwrite_with=oldest`: the first entry of the batch with its
combine field replaced by the `combine_with`-join of the batch's
values ([] for an empty batch). -/
def oldestCombined (op : ROp) : List REntry → List REntry
  | [] => []
  | e :: rest => [{ e with readField := some (specJoin op (e :: rest)) }]

/-- `RecombineOperatorConfig` as far as `Build` inspects it.
`combineFieldPresent` is the `c.CombineField.FieldInterface != nil`
check (the field-path type lives outside this snapshot). -/
structure RecombineConfig where
  isFirstEntry : String
  isLastEntry : String
  maxBatchSize : Nat
  combineFieldPresent : Bool
  combineWith : String
  overwriteWith : String
  forceFlushTimeout : Nat
  maxSources : Nat
  onErrorSend : Bool
deriving DecidableEq, Repr

/-- Tail of `Build` after predicate compilation: the `combine_field`
presence check followed by the `overwrite_with` switch, then the
construction of the single operator returned. -/
def buildRecombineRest (c : RecombineConfig) (matchesFirst : Bool) :
    Except String (List ROp) :=
  if ¬ c.combineFieldPresent then
    .error "missing required argument combine_field"
  else if c.overwriteWith = "newest" then
    .ok [⟨matchesFirst, c.maxBatchSize, c.maxSources, false, c.combineWith,
          c.forceFlushTimeout, c.onErrorSend⟩]
  else if c.overwriteWith = "oldest" ∨ c.overwriteWith = "" then
    .ok [⟨matchesFirst, c.maxBatchSize, c.maxSources, true, c.combineWith,
          c.forceFlushTimeout, c.onErrorSend⟩]
  else
    .error "invalid value for parameter overwrite_with"

/-- `Build` from `recombine.go`. The embedded transformer build and the
expression compiler are external collaborators: their outcomes are the
parameters `transformerOk` and `compileOk`. The checks appear in source
order: transformer build, both-set, neither-set, predicate compilation,
`combine_field` presence, `overwrite_with` switch. -/
def buildRecombine (transformerOk : Bool) (compileOk : String → Bool)
    (c : RecombineConfig) : Except String (List ROp) :=
  if ¬ transformerOk then .error "failed to build transformer config"
  else if ¬ c.isLastEntry = "" ∧ ¬ c.isFirstEntry = "" then
    .error "only one of is_first_entry and is_last_entry can be set"
  else if c.isLastEntry = "" ∧ c.isFirstEntry = "" then
    .error "one of is_first_entry and is_last_entry must be set"
  else if ¬ c.isFirstEntry = "" then
    if compileOk c.isFirstEntry then buildRecombineRest c true
    else .error "failed to compile is_first_entry"
  else
    if compileOk c.isLastEntry then buildRecombineRest c false
    else .error "failed to compile is_last_entry"

/-!
Concrete inputs used by counterexamples and witnesses.
-/

/-- A journald line identical to `exampleLine` except that `PRIORITY`
is a JSON number (jsoniter decodes it as `float64`), not a string. -/
def numPriorityLine : JObj :=
  [("__REALTIME_TIMESTAMP", .str "1600000000000000"),
   ("__CURSOR", .str "c1"),
   ("MESSAGE", .str "hi"),
   ("PRIORITY", .num 3)]

/-- A journald line whose string `PRIORITY` is out of range. -/
def badPriorityLine : JObj :=
  [("__REALTIME_TIMESTAMP", .str "1600000000000000"),
   ("__CURSOR", .str "c1"),
   ("MESSAGE", .str "hi"),
   ("PRIORITY", .str "8")]

/-- A journald line missing `__REALTIME_TIMESTAMP`: its parse fails. -/
def missingTsLine : JObj :=
  [("__CURSOR", .str "c1"), ("MESSAGE", .str "hi")]

/-- A line like `exampleLine` with the priority value substituted. -/
def lineWithPriority (v : JVal) : JObj :=
  [("__REALTIME_TIMESTAMP", .str "1600000000000000"),
   ("__CURSOR", .str "c1"),
   ("MESSAGE", .str "hi"),
   ("PRIORITY", v)]

/-- The empty persister (no saved offset). -/
def emptyPersister : Persister := fun _ => none

/-- Recombiner used by the C1 scenario: first-line matching, oldest,
`max_sources = 2`. -/
def c1Op : ROp := ⟨true, 1000, 2, true, "\n", 5, true⟩

/-- An entry of source `s1` already buffered when the C1 scenario
starts. -/
def c1e1 : REntry := ⟨0, some "a", true, some "s1", some false, 0⟩

/-- The first entry of the previously unknown source `s2`. -/
def c1e2 : REntry := ⟨1, some "b", true, some "s2", some false, 0⟩

/-- Recombiner used by the C2 scenario (the spec's scenario 5):
first-line matching, oldest, newline separator, limits unreached. -/
def c2Op : ROp := ⟨true, 1000, 1000, true, "\n", 5, true⟩

/-- Entry with body `A1` (matches the `is_first_entry` predicate). -/
def c2A1 : REntry := ⟨0, some "A1", true, some "f", some true, 0⟩

/-- Entry with body `x` (no match). -/
def c2x : REntry := ⟨1, some "x", true, some "f", some false, 1⟩

/-- Entry with body `y` (no match). -/
def c2y : REntry := ⟨2, some "y", true, some "f", some false, 2⟩

/-- Entry with body `A2` (matches the `is_first_entry` predicate). -/
def c2A2 : REntry := ⟨3, some "A2", true, some "f", some true, 3⟩

/-- Recombiner used by the C4 counterexample. -/
def c4Op : ROp := ⟨true, 1000, 1000, true, "\n", 5, true⟩

/-- A batch entry whose combine-field read yields `a`. -/
def c4ea : REntry := ⟨0, some "a", true, some "s", some false, 0⟩

/-- A batch entry whose combine-field read fails. -/
def c4eb : REntry := ⟨1, none, true, some "s", some false, 0⟩

/-- Recombiner used by the C6 counterexample: `max_batch_size = 2`. -/
def c6Op : ROp := ⟨true, 2, 1000, true, "\n", 5, true⟩

/-- Entries of one source whose combine-field read fails and whose
combine-field `Set` fails (e.g. `combine_field` is a nested body path
while the bodies are plain strings). -/
def c6e (i : Nat) : REntry := ⟨i, none, false, some "s", some false, 0⟩

/-- The batch map after feeding `c6e 0`, `c6e 1`, `c6e 2` to a fresh
recombiner `c6Op`. -/
def c6m3 : BatchMap :=
  (processEntry c6Op
    (processEntry c6Op (processEntry c6Op [] (c6e 0)).m (c6e 1)).m
    (c6e 2)).m

/-- A valid recombine configuration (used by the C8 witness). -/
def c8Good : RecombineConfig :=
  ⟨"body matches A", "", 1000, true, "\n", "", 5, 1000, true⟩

/-!
Theorems. Claim references follow CLAIMS.json.
-/

/-- Claim C5 (confirmed): decoding the line
`{"__REALTIME_TIMESTAMP":"1600000000000000","__CURSOR":"c1",
"MESSAGE":"hi","PRIORITY":"3","UNIT":"foo"}` yields an Entry whose
body is the MESSAGE value, whose timestamp is the microsecond value
times 1000 nanoseconds, whose severity and text come from the fixed
table at PRIORITY 3 (Error / "err"), and whose attributes are the
remaining keys with non-empty converted values (here the retained
`__CURSOR` and `UNIT=foo`), together with the cursor string `c1`
returned for persistence; and the fixed table maps 0..7 to
Fatal/"emerg", Error3/"alert", Error2/"crit", Error/"err",
Warn/"warning", Info2/"notice", Info/"info", Debug/"debug". -/
theorem journald_c5_decode :
    parseJournalEntry exampleLine =
      .ok { body := .str "hi", ts := 1600000000000000 * 1000,
            sev := .error, sevText := "err",
            attrs := [("__CURSOR", "c1"), ("UNIT", "foo")] } "c1" ∧
    addSeverity (.str "0") = .ok .fatal "emerg" ∧
    addSeverity (.str "1") = .ok .error3 "alert" ∧
    addSeverity (.str "2") = .ok .error2 "crit" ∧
    addSeverity (.str "3") = .ok .error "err" ∧
    addSeverity (.str "4") = .ok .warn "warning" ∧
    addSeverity (.str "5") = .ok .info2 "notice" ∧
    addSeverity (.str "6") = .ok .info "info" ∧
    addSeverity (.str "7") = .ok .debug "debug" := by
  decide

/-- Claim C9 (confirmed): `addSeverity` panics (through the unchecked
type assertion `sev.(string)`) exactly on the non-string priority
values; its error branch is reachable only for strings that fail
integer parsing or whose integer is outside 0..7; and a line carrying
a non-string PRIORITY makes the reader task panic rather than warn. -/
theorem journald_c9_assertion_panic (v : JVal) (p : Persister) :
    (addSeverity v = .panicked ↔ ∀ s, v ≠ .str s) ∧
    (addSeverity v = .error →
       ∃ s, v = .str s ∧
         (goParseInt s = none ∨
          ∃ n, goParseInt s = some n ∧ (n < 0 ∨ 7 < n))) ∧
    ((∀ s, v ≠ .str s) → readerStep p (lineWithPriority v) = (p, [.panicked])) := by
  cases v with
  | str s =>
      refine ⟨?_, ?_, ?_⟩
      · constructor
        · intro h
          exfalso
          simp only [addSeverity] at h
          cases hg : goParseInt s with
          | none => rw [hg] at h; exact absurd h (by simp)
          | some n =>
              rw [hg] at h
              by_cases hr : n < 0 ∨ 7 < n
              · simp [hr] at h
              · simp [hr] at h
        · intro h; exact absurd rfl (h s)
      · intro h
        refine ⟨s, rfl, ?_⟩
        simp only [addSeverity] at h
        cases hg : goParseInt s with
        | none => exact Or.inl rfl
        | some n =>
            rw [hg] at h
            by_cases hr : n < 0 ∨ 7 < n
            · exact Or.inr ⟨n, rfl, hr⟩
            · simp [hr] at h
      · intro h; exact absurd rfl (h s)
  | num n =>
      refine ⟨by simp [addSeverity], by simp [addSeverity], fun _ => rfl⟩
  | bytes bs =>
      refine ⟨by simp [addSeverity], by simp [addSeverity], fun _ => rfl⟩
  | null =>
      refine ⟨by simp [addSeverity], by simp [addSeverity], fun _ => rfl⟩

/-- Closed witness for `journald_c9_assertion_panic`: at the JSON
number 3 the assertion panics and the reader task panics; at the
string "x" the error branch yields a string witness. -/
theorem journald_c9_assertion_panic_witness :
    addSeverity (.num 3) = .panicked ∧
    readerStep emptyPersister (lineWithPriority (.num 3)) =
      (emptyPersister, [.panicked]) ∧
    (∃ s, JVal.str "x" = JVal.str s ∧
       (goParseInt s = none ∨
        ∃ n, goParseInt s = some n ∧ (n < 0 ∨ 7 < n))) :=
  ⟨((journald_c9_assertion_panic (.num 3) emptyPersister).1).mpr (by intro s; simp),
   ((journald_c9_assertion_panic (.num 3) emptyPersister).2.2) (by intro s; simp),
   ((journald_c9_assertion_panic (.str "x") emptyPersister).2.1) (by decide)⟩

/-- Claim C3 (confirmed): in a reader step, the value persisted under
`lastReadCursorKey` is set to the line's `__CURSOR` string if and only
if the line parsed successfully into an Entry; the `setCursor` event
precedes the `write` event (the cursor is advanced before the
downstream Write), and after the step — hence immediately after the
Write returns — the persisted cursor equals that line's `__CURSOR`;
for a line whose parse fails, nothing is written and the persisted
state is unchanged. The persister itself is modelled as reliable
storage (spec component C4). -/
theorem journald_c3_cursor_order (p : Persister) (m : JObj) :
    (∀ e c, parseJournalEntry m = .ok e c →
       readerStep p m =
         (persisterSet p lastReadCursorKey c, [.setCursor c, .write e]) ∧
       (readerStep p m).1 lastReadCursorKey = some c) ∧
    (parseJournalEntry m = .error →
       (readerStep p m).2 = [.warn] ∧ ∀ k, (readerStep p m).1 k = p k) ∧
    (parseJournalEntry m = .panicked →
       (readerStep p m).2 = [.panicked] ∧ ∀ k, (readerStep p m).1 k = p k) := by
  refine ⟨?_, ?_, ?_⟩
  · intro e c h
    unfold readerStep
    rw [h]
    exact ⟨rfl, by simp [persisterSet]⟩
  · intro h
    unfold readerStep
    rw [h]
    exact ⟨rfl, fun _ => rfl⟩
  · intro h
    unfold readerStep
    rw [h]
    exact ⟨rfl, fun _ => rfl⟩

/-- Closed witness for `journald_c3_cursor_order`: the example line
persists `c1` and emits set-then-write; the line missing its
timestamp warns. -/
theorem journald_c3_cursor_order_witness :
    (readerStep emptyPersister exampleLine).1 lastReadCursorKey = some "c1" ∧
    (readerStep emptyPersister missingTsLine).2 = [.warn] :=
  ⟨(((journald_c3_cursor_order emptyPersister exampleLine).1) exampleEntry "c1"
      (by decide)).2,
   (((journald_c3_cursor_order emptyPersister missingTsLine).2.1) (by decide)).1⟩

/-- In an association list with nodup keys, a key determines its value. -/
theorem pairValUnique {α β : Type _} :
    ∀ (m : List (α × β)) {a : α} {b c : β},
      (m.map Prod.fst).Nodup → (a, b) ∈ m → (a, c) ∈ m → b = c := by
  intro m
  induction m with
  | nil => intro a b c _ hb _; cases hb
  | cons q rest ih =>
      intro a b c hnd hb hc
      rw [List.map_cons, List.nodup_cons] at hnd
      rcases List.mem_cons.mp hb with hb1 | hb2
      · rcases List.mem_cons.mp hc with hc1 | hc2
        · have h := hb1.trans hc1.symm
          exact congrArg Prod.snd h
        · exfalso
          apply hnd.1
          rw [← hb1]
          exact List.mem_map.mpr ⟨(a, c), hc2, rfl⟩
      · rcases List.mem_cons.mp hc with hc1 | hc2
        · exfalso
          apply hnd.1
          rw [← hc1]
          exact List.mem_map.mpr ⟨(a, b), hb2, rfl⟩
        · exact ih hnd.2 hb2 hc2

/-- Deleting one key keeps membership of pairs under other keys. -/
theorem mem_eraseJ_of_ne {m : JObj} {k k' : String} {v : JVal}
    (hne : k ≠ k') (hm : (k, v) ∈ m) : (k, v) ∈ eraseJ m k' := by
  unfold eraseJ
  exact List.mem_filter.mpr ⟨hm, by simp [hne]⟩

/-- Deleted maps only lose pairs. -/
theorem mem_of_mem_eraseJ {m : JObj} {k' : String} {q : String × JVal}
    (h : q ∈ eraseJ m k') : q ∈ m :=
  (List.mem_filter.mp h).1

/-- Deleting a key preserves nodup keys. -/
theorem nodup_eraseJ {m : JObj} {k' : String}
    (h : (m.map Prod.fst).Nodup) : ((eraseJ m k').map Prod.fst).Nodup :=
  h.sublist ((List.filter_sublist m).map Prod.fst)

/-- A successful Go map read locates a pair of the list. -/
theorem lookupJ_mem {m : JObj} {k : String} {v : JVal}
    (h : lookupJ m k = some v) : (k, v) ∈ m := by
  unfold lookupJ at h
  cases hf : m.find? (fun p => p.1 = k) with
  | none => rw [hf] at h; cases h
  | some q =>
      rw [hf] at h
      have hq : q ∈ m := List.mem_of_find?_eq_some hf
      have hk : q.1 = k := by
        have := List.find?_some hf
        exact of_decide_eq_true this
      cases h
      rw [← hk]
      exact hq

/-- A priority string rejected by `strconv.Atoi` or by the 0..7 range
check drives `addSeverity` to its error branch. -/
theorem addSeverity_error_of_bad {s : String}
    (hbad : goParseInt s = none ∨
            ∃ n, goParseInt s = some n ∧ (n < 0 ∨ 7 < n)) :
    addSeverity (.str s) = .error := by
  simp only [addSeverity]
  rcases hbad with h | ⟨n, hn, hr⟩
  · rw [h]
  · rw [hn]
    simp [hr]

/-- If the remaining keys contain PRIORITY only with a rejected string
value, the attribute loop aborts with an error. -/
theorem addFields_error_of_priority {s : String}
    (hsev : addSeverity (.str s) = .error) :
    ∀ (l : JObj) (cursor : String) (e : JEntry),
      ("PRIORITY", JVal.str s) ∈ l →
      (∀ q ∈ l, q.1 = "PRIORITY" → q.2 = JVal.str s) →
      addFields cursor e l = .error := by
  intro l
  induction l with
  | nil => intro cursor e hmem _; cases hmem
  | cons q rest ih =>
      intro cursor e hmem huniq
      obtain ⟨k, v⟩ := q
      by_cases hk : k = "PRIORITY"
      · have hv : v = JVal.str s := huniq (k, v) (List.mem_cons_self _ _) hk
        subst hk hv
        simp [addFields, hsev]
      · have hmem2 : ("PRIORITY", JVal.str s) ∈ rest := by
          rcases List.mem_cons.mp hmem with h1 | h2
          · exact absurd (congrArg Prod.fst h1).symm hk
          · exact h2
        have huniq2 : ∀ q ∈ rest, q.1 = "PRIORITY" → q.2 = JVal.str s :=
          fun q hq => huniq q (List.mem_cons_of_mem _ hq)
        simp only [addFields, if_neg hk]
        by_cases hval : convertField v = ""
        · rw [if_pos hval]
          exact ih cursor e hmem2 huniq2
        · rw [if_neg hval]
          exact ih cursor _ hmem2 huniq2

/-- Claim C7 (corrected), counterexample: a line whose `PRIORITY` is
the JSON number 3 (not a string) is not "skipped with a warning" as
the claim states for non-string values — `parseJournalEntry` hits the
unchecked type assertion and the reader task panics, emitting no warn
event. -/
theorem journald_c7_counterexample :
    parseJournalEntry numPriorityLine = .panicked ∧
    (readerStep emptyPersister numPriorityLine).2 = [.panicked] ∧
    ([JEvent.panicked] : List JEvent) ≠ [JEvent.warn] := by
  decide

/-- Claim C7 (corrected), amended: for every line whose `PRIORITY`
value is a string that does not parse as an integer in 0..7
(non-numeric or out of range), the reader skips the line with a
warning — no Entry is written downstream and the persisted cursor is
unchanged; a non-string `PRIORITY` value instead panics the reader
task (see `journald_c7_counterexample`). -/
theorem journald_c7_amended (p : Persister) (m : JObj) (s : String)
    (hnd : (m.map Prod.fst).Nodup)
    (hmem : ("PRIORITY", JVal.str s) ∈ m)
    (hbad : goParseInt s = none ∨
            ∃ n, goParseInt s = some n ∧ (n < 0 ∨ 7 < n)) :
    parseJournalEntry m = .error ∧
    (readerStep p m).2 = [.warn] ∧
    ∀ k, (readerStep p m).1 k = p k := by
  have hsev : addSeverity (.str s) = .error := addSeverity_error_of_bad hbad
  have hparse : parseJournalEntry m = .error := by
    cases h1 : lookupJ m "__REALTIME_TIMESTAMP" with
    | none => simp [parseJournalEntry, h1]
    | some tv =>
        cases tv with
        | str tss =>
            cases h2 : goParseInt tss with
            | none => simp [parseJournalEntry, h1, h2]
            | some tsInt =>
                cases h3 : lookupJ (eraseJ m "__REALTIME_TIMESTAMP") "__CURSOR" with
                | none => simp [parseJournalEntry, h1, h2, h3]
                | some cv =>
                    cases cv with
                    | str cursor =>
                        cases h4 : lookupJ (eraseJ m "__REALTIME_TIMESTAMP") "MESSAGE" with
                        | none => simp [parseJournalEntry, h1, h2, h3, h4]
                        | some msg =>
                            have hres : parseJournalEntry m =
                                addFields cursor
                                  { body := msg, ts := tsInt * 1000,
                                    sev := .default, sevText := "",
                                    attrs := [] }
                                  (eraseJ (eraseJ m "__REALTIME_TIMESTAMP")
                                    "MESSAGE") := by
                              simp [parseJournalEntry, h1, h2, h3, h4]
                            rw [hres]
                            apply addFields_error_of_priority hsev
                            · exact mem_eraseJ_of_ne (by decide)
                                (mem_eraseJ_of_ne (by decide) hmem)
                            · intro q hq hqk
                              have hqm : q ∈ m :=
                                mem_of_mem_eraseJ (mem_of_mem_eraseJ hq)
                              have hpm : (q.1, q.2) ∈ m := hqm
                              rw [hqk] at hpm
                              exact pairValUnique m hnd hpm hmem
                    | num n => simp [parseJournalEntry, h1, h2, h3]
                    | bytes bs => simp [parseJournalEntry, h1, h2, h3]
                    | null => simp [parseJournalEntry, h1, h2, h3]
        | num n => simp [parseJournalEntry, h1]
        | bytes bs => simp [parseJournalEntry, h1]
        | null => simp [parseJournalEntry, h1]
  refine ⟨hparse, ?_, ?_⟩
  · unfold readerStep
    rw [hparse]
  · unfold readerStep
    rw [hparse]
    intro k
    rfl

/-- Closed witness for `journald_c7_amended`: the line whose string
priority is the out-of-range "8" is skipped with a warning and leaves
the persister untouched. -/
theorem journald_c7_amended_witness :
    parseJournalEntry badPriorityLine = .error ∧
    (readerStep emptyPersister badPriorityLine).2 = [.warn] :=
  ⟨(journald_c7_amended emptyPersister badPriorityLine "8" (by decide)
      (by decide) (Or.inr ⟨8, by decide, by decide⟩)).1,
   (journald_c7_amended emptyPersister badPriorityLine "8" (by decide)
      (by decide) (Or.inr ⟨8, by decide, by decide⟩)).2.1⟩

/-- The attribute loop only ever appends attributes. -/
theorem addFields_attrs_mono :
    ∀ (l : JObj) (c : String) (e e' : JEntry) (c' : String),
      addFields c e l = .ok e' c' → ∀ a ∈ e.attrs, a ∈ e'.attrs := by
  intro l
  induction l with
  | nil =>
      intro c e e' c' h a ha
      cases h
      exact ha
  | cons q rest ih =>
      intro c e e' c' h a ha
      obtain ⟨k, v⟩ := q
      simp only [addFields] at h
      split at h
      · split at h
        · exact ParseResult.noConfusion h
        · exact ParseResult.noConfusion h
        · exact ih c _ e' c' h a ha
      · split at h
        · exact ih c e e' c' h a ha
        · exact ih c _ e' c' h a (List.mem_append_left _ ha)

/-- The attribute loop returns the cursor it was given. -/
theorem addFields_cursor_ret :
    ∀ (l : JObj) (c : String) (e e' : JEntry) (c' : String),
      addFields c e l = .ok e' c' → c' = c := by
  intro l
  induction l with
  | nil =>
      intro c e e' c' h
      cases h
      rfl
  | cons q rest ih =>
      intro c e e' c' h
      obtain ⟨k, v⟩ := q
      simp only [addFields] at h
      split at h
      · split at h
        · exact ParseResult.noConfusion h
        · exact ParseResult.noConfusion h
        · exact ih c _ e' c' h
      · split at h
        · exact ih c e e' c' h
        · exact ih c _ e' c' h

/-- A `__CURSOR` pair with a non-empty string value that survives into
the attribute loop ends up among the attributes. -/
theorem addFields_cursor_attr {cur : String} (hcur : ¬ cur = "") :
    ∀ (l : JObj) (c : String) (e e' : JEntry) (c' : String),
      ("__CURSOR", JVal.str cur) ∈ l →
      addFields c e l = .ok e' c' → ("__CURSOR", cur) ∈ e'.attrs := by
  intro l
  induction l with
  | nil => intro c e e' c' hmem _; cases hmem
  | cons q rest ih =>
      intro c e e' c' hmem h
      obtain ⟨k, v⟩ := q
      rcases List.mem_cons.mp hmem with h1 | h2
      · obtain ⟨hk, hv⟩ := Prod.mk.injEq .. ▸ h1.symm
        subst hk
        subst hv
        simp only [addFields] at h
        rw [if_neg (by decide : ¬ ("__CURSOR" : String) = "PRIORITY")] at h
        rw [show convertField (JVal.str cur) = cur from rfl] at h
        rw [if_neg hcur] at h
        exact addFields_attrs_mono rest c _ e' c' h ("__CURSOR", cur)
          (List.mem_append_right _ (List.mem_singleton.mpr rfl))
      · simp only [addFields] at h
        split at h
        · split at h
          · exact ParseResult.noConfusion h
          · exact ParseResult.noConfusion h
          · exact ih c _ e' c' h2 h
        · split at h
          · exact ih c e e' c' h2 h
          · exact ih c _ e' c' h2 h

/-- Every attribute produced by the loop either was already present or
stems from a key of the remaining map. -/
theorem addFields_attrs_from :
    ∀ (l : JObj) (c : String) (e e' : JEntry) (c' : String),
      addFields c e l = .ok e' c' →
      ∀ kv ∈ e'.attrs, kv ∈ e.attrs ∨ ∃ jv, (kv.1, jv) ∈ l := by
  intro l
  induction l with
  | nil =>
      intro c e e' c' h kv hkv
      cases h
      exact Or.inl hkv
  | cons q rest ih =>
      intro c e e' c' h kv hkv
      obtain ⟨k, v⟩ := q
      simp only [addFields] at h
      split at h
      · split at h
        · exact ParseResult.noConfusion h
        · exact ParseResult.noConfusion h
        · rcases ih c _ e' c' h kv hkv with hin | ⟨jv, hjv⟩
          · exact Or.inl hin
          · exact Or.inr ⟨jv, List.mem_cons_of_mem _ hjv⟩
      · split at h
        · rcases ih c e e' c' h kv hkv with hin | ⟨jv, hjv⟩
          · exact Or.inl hin
          · exact Or.inr ⟨jv, List.mem_cons_of_mem _ hjv⟩
        · rcases ih c _ e' c' h kv hkv with hin | ⟨jv, hjv⟩
          · rcases List.mem_append.mp hin with ha | hb
            · exact Or.inl ha
            · have hkv2 : kv = (k, convertField v) := List.mem_singleton.mp hb
              refine Or.inr ⟨v, ?_⟩
              rw [hkv2]
              exact List.mem_cons_self _ _
          · exact Or.inr ⟨jv, List.mem_cons_of_mem _ hjv⟩

/-- Claim C10 (confirmed): `__CURSOR` is read but never deleted from
the decoded map, so every successfully parsed line (with its non-empty
cursor string) yields an Entry carrying the attribute
`__CURSOR = cursor` in addition to the cursor being returned for
persistence, while the removed `__REALTIME_TIMESTAMP` and `MESSAGE`
keys never appear among the attributes. -/
theorem journald_c10_cursor_attr (m : JObj) (e : JEntry) (c : String)
    (hok : parseJournalEntry m = .ok e c) (hc : ¬ c = "") :
    ("__CURSOR", c) ∈ e.attrs ∧
    (∀ v, ("__REALTIME_TIMESTAMP", v) ∉ e.attrs) ∧
    (∀ v, ("MESSAGE", v) ∉ e.attrs) := by
  cases h1 : lookupJ m "__REALTIME_TIMESTAMP" with
  | none => simp [parseJournalEntry, h1] at hok
  | some tv =>
      cases tv with
      | str tss =>
          cases h2 : goParseInt tss with
          | none => simp [parseJournalEntry, h1, h2] at hok
          | some tsInt =>
              cases h3 : lookupJ (eraseJ m "__REALTIME_TIMESTAMP") "__CURSOR" with
              | none => simp [parseJournalEntry, h1, h2, h3] at hok
              | some cv =>
                  cases cv with
                  | str cursor =>
                      cases h4 : lookupJ (eraseJ m "__REALTIME_TIMESTAMP") "MESSAGE" with
                      | none => simp [parseJournalEntry, h1, h2, h3, h4] at hok
                      | some msg =>
                          have hres : parseJournalEntry m =
                              addFields cursor
                                { body := msg, ts := tsInt * 1000,
                                  sev := .default, sevText := "",
                                  attrs := [] }
                                (eraseJ (eraseJ m "__REALTIME_TIMESTAMP")
                                  "MESSAGE") := by
                            simp [parseJournalEntry, h1, h2, h3, h4]
                          rw [hres] at hok
                          have hcc : c = cursor :=
                            addFields_cursor_ret _ _ _ _ _ hok
                          subst hcc
                          refine ⟨?_, ?_, ?_⟩
                          · have hmem1 : ("__CURSOR", JVal.str c) ∈
                                eraseJ m "__REALTIME_TIMESTAMP" :=
                              lookupJ_mem h3
                            have hmem2 : ("__CURSOR", JVal.str c) ∈
                                eraseJ (eraseJ m "__REALTIME_TIMESTAMP")
                                  "MESSAGE" :=
                              mem_eraseJ_of_ne (by decide) hmem1
                            exact addFields_cursor_attr hc _ _ _ _ _ hmem2 hok
                          · intro v hv
                            rcases addFields_attrs_from _ _ _ _ _ hok _ hv with
                              hin | ⟨jv, hjv⟩
                            · exact absurd hin (List.not_mem_nil _)
                            · have hm1 : ("__REALTIME_TIMESTAMP", jv) ∈
                                  eraseJ m "__REALTIME_TIMESTAMP" :=
                                mem_of_mem_eraseJ hjv
                              have := (List.mem_filter.mp hm1).2
                              simp at this
                          · intro v hv
                            rcases addFields_attrs_from _ _ _ _ _ hok _ hv with
                              hin | ⟨jv, hjv⟩
                            · exact absurd hin (List.not_mem_nil _)
                            · have := (List.mem_filter.mp hjv).2
                              simp at this
                  | num n => simp [parseJournalEntry, h1, h2, h3] at hok
                  | bytes bs => simp [parseJournalEntry, h1, h2, h3] at hok
                  | null => simp [parseJournalEntry, h1, h2, h3] at hok
      | num n => simp [parseJournalEntry, h1] at hok
      | bytes bs => simp [parseJournalEntry, h1] at hok
      | null => simp [parseJournalEntry, h1] at hok

/-- Closed witness for `journald_c10_cursor_attr` at the example line. -/
theorem journald_c10_cursor_attr_witness :
    ("__CURSOR", "c1") ∈ exampleEntry.attrs :=
  (journald_c10_cursor_attr exampleLine exampleEntry "c1" (by decide)
    (by decide)).1

/-- Folding batches onto an accumulator prepends all buffered entries. -/
theorem foldr_entries (m : BatchMap) :
    ∀ init : List REntry,
      m.foldr (fun p acc => p.2 ++ acc) init = allEntries m ++ init := by
  induction m with
  | nil => intro init; rfl
  | cons p rest ih =>
      intro init
      show p.2 ++ rest.foldr (fun p acc => p.2 ++ acc) init = _
      rw [ih init]
      show _ = (p.2 ++ rest.foldr (fun p acc => p.2 ++ acc) []) ++ init
      rw [ih []]
      simp [List.append_assoc]

/-- An absent key reads as the empty batch. -/
theorem lookupB_of_not_contains {m : BatchMap} {s : String}
    (h : containsB m s = false) : lookupB m s = [] := by
  unfold lookupB
  have hf : m.find? (fun p => p.1 = s) = none := by
    rw [List.find?_eq_none]
    intro p hp
    intro hps
    have : containsB m s = true := List.any_eq_true.mpr ⟨p, hp, hps⟩
    rw [h] at this
    cases this
  rw [hf]

/-- Claim C1 (corrected), counterexample: with `max_sources = 2`, a
batch holding one entry of source `s1`, and a first entry of the new
source `s2`, `Process` flushes both entries individually — including
the new one — and leaves the batch map empty, so the new entry is NOT
"the sole entry buffered under its source key" as the claim states:
its source key is absent. -/
theorem recombine_c1_counterexample :
    processEntry c1Op [("s1", [c1e1])] c1e2 = ⟨[], [c1e1, c1e2], false⟩ ∧
    lookupB (processEntry c1Op [("s1", [c1e1])] c1e2).m "s2" ≠ [c1e2] := by
  decide

/-- Claim C1 (corrected), amended: when an entry of a previously
unknown source arrives and the key count after its insertion reaches
`max_sources`, `Process` emits every buffered Entry individually —
including the just-inserted new entry — and clears the whole batch
map, so that after `Process` returns nothing at all is buffered (in
particular, with `max_sources = 1` every entry of a previously unknown
source is emitted individually at once and no accumulation across two
sources ever happens). Cross-source emission order is the model's map
order. -/
theorem recombine_c1_amended (op : ROp) (m : BatchMap) (e : REntry) (b : Bool)
    (hex : e.exprRes = some b)
    (hnew : containsB m (sourceOf e) = false)
    (hcap : op.maxSources ≤ m.length + 1) :
    processEntry op m e = ⟨[], allEntries m ++ [e], false⟩ := by
  have hlook : lookupB m (sourceOf e) = [] := lookupB_of_not_contains hnew
  have hadd : addToBatch op m e (sourceOf e) = ([], allEntries m ++ [e]) := by
    unfold addToBatch
    rw [hnew]
    rw [if_pos (by simp : ¬ (false = true))]
    rw [if_pos (show op.maxSources ≤ (insertB m (sourceOf e) [e]).length by
      simpa [insertB] using hcap)]
    simp [flushUncombined, insertB, List.foldr_append, foldr_entries]
  have hflushEmpty : flushSource op m (sourceOf e) = .ok (m, []) := by
    unfold flushSource
    rw [hlook]
  have hflushNil : flushSource op ([] : BatchMap) (sourceOf e) = .ok ([], []) := rfl
  cases b with
  | true =>
      cases hmf : op.matchFirstLine with
      | true => simp [processEntry, hex, hmf, hflushEmpty, hadd]
      | false => simp [processEntry, hex, hmf, hadd, hflushNil]
  | false =>
      simp [processEntry, hex, hadd]

/-- Closed witness for `recombine_c1_amended` on the C1 scenario. -/
theorem recombine_c1_amended_witness :
    processEntry c1Op [("s1", [c1e1])] c1e2 =
      ⟨[], allEntries [("s1", [c1e1])] ++ [c1e2], false⟩ :=
  recombine_c1_amended c1Op [("s1", [c1e1])] c1e2 false (by decide) (by decide)
    (by decide)

/-- When every read succeeds, the code's join coincides with the
spec's separator join. -/
theorem recombineJoin_eq_specJoin (op : ROp) :
    ∀ l : List REntry, (∀ x ∈ l, x.readField.isSome = true) →
      recombineJoin op l = specJoin op l := by
  intro l
  induction l with
  | nil => intro _; rfl
  | cons e rest ih =>
      intro hall
      obtain ⟨s, hs⟩ := Option.isSome_iff_exists.mp
        (hall e (List.mem_cons_self _ _))
      cases rest with
      | nil => simp [recombineJoin, specJoin, sepJoin, hs]
      | cons e2 rest2 =>
          obtain ⟨s2, hs2⟩ := Option.isSome_iff_exists.mp
            (hall e2 (List.mem_cons_of_mem _ (List.mem_cons_self _ _)))
          have ih2 := ih (fun x hx => hall x (List.mem_cons_of_mem _ hx))
          rw [specJoin] at ih2
          simp [recombineJoin, specJoin, sepJoin, hs, hs2, ih2,
                List.filterMap_cons, String.append_assoc]

/-- Claim C4 (corrected), counterexample: in a batch `[a-entry,
failing-entry]` whose last entry's combine-field read fails, the code
leaves the trailing separator written after `a`: the combined value is
`"a\n"`, not the separator-join of the successful values, which is
`"a"`. -/
theorem recombine_c4_counterexample :
    flushSource c4Op [("s", [c4ea, c4eb])] "s" =
      .ok ([], [{ c4ea with readField := some "a\n" }]) ∧
    recombineJoin c4Op [c4ea, c4eb] = "a\n" ∧
    specJoin c4Op [c4ea, c4eb] = "a" ∧
    ("a\n" : String) ≠ "a" := by
  decide

/-- Claim C4 (corrected), amended: `flushSource` is a no-op on an
empty or absent batch; otherwise it picks base = entries[0] under
`overwrite_with=oldest` and entries[len-1] otherwise, and sets base's
combine field to the concatenation in which every entry whose read
succeeds contributes its value followed by `combine_with` unless it
sits at the batch's last index — so a failing entry contributes
neither value nor its own separator, but a read failure on the final
entry leaves a trailing separator; when all reads succeed this equals
the separator-join of the values. If the `Set` on base succeeds, the
mutated base is written downstream and the key removed in the same
step; if it fails, the error is returned and the batch is kept. -/
theorem recombine_c4_amended (op : ROp) (m : BatchMap) (s : String) :
    (lookupB m s = [] → flushSource op m s = .ok (m, [])) ∧
    (∀ e0 rest, lookupB m s = e0 :: rest →
       ((if op.overwriteWithOldest then e0
         else (e0 :: rest).getLastD e0).setOk = true →
          flushSource op m s =
            .ok (eraseB m s,
              [{ (if op.overwriteWithOldest then e0
                  else (e0 :: rest).getLastD e0) with
                 readField := some (recombineJoin op (e0 :: rest)) }])) ∧
       ((if op.overwriteWithOldest then e0
         else (e0 :: rest).getLastD e0).setOk = false →
          flushSource op m s = .error ())) ∧
    (∀ l : List REntry, (∀ x ∈ l, x.readField.isSome = true) →
       recombineJoin op l = specJoin op l) := by
  refine ⟨?_, ?_, recombineJoin_eq_specJoin op⟩
  · intro h
    unfold flushSource
    rw [h]
  · intro e0 rest h
    constructor
    · intro hset
      have hset2 : (if op.overwriteWithOldest = true then e0
          else (e0 :: rest).getLast?.getD e0).setOk = true := by
        simpa [List.getLastD_eq_getLast?] using hset
      unfold flushSource
      rw [h]
      simp [hset2, List.getLastD_eq_getLast?]
    · intro hset
      have hset2 : (if op.overwriteWithOldest = true then e0
          else (e0 :: rest).getLast?.getD e0).setOk = false := by
        simpa [List.getLastD_eq_getLast?] using hset
      unfold flushSource
      rw [h]
      simp [hset2, List.getLastD_eq_getLast?]

/-- Closed witness for `recombine_c4_amended`: flushing the singleton
batch `[a-entry]` emits the base with the joined value `a` and empties
the map. -/
theorem recombine_c4_amended_witness :
    flushSource c4Op [("s", [c4ea])] "s" =
      .ok (eraseB [("s", [c4ea])] "s",
        [{ (if c4Op.overwriteWithOldest then c4ea
            else ([c4ea] : List REntry).getLastD c4ea) with
           readField := some (recombineJoin c4Op [c4ea]) }]) :=
  (((recombine_c4_amended c4Op [("s", [c4ea])] "s").2.1 c4ea [] (by decide)).1)
    (by decide)

/-- Claim C8 (confirmed): with the embedded transformer building
successfully and the predicate strings compiling, `Build` succeeds —
returning exactly one operator — precisely when exactly one of
`is_first_entry` / `is_last_entry` is set, `combine_field` is present,
and `overwrite_with` is `oldest`, `newest` or unset; and the built
operator overwrites with the oldest exactly when `overwrite_with` is
`oldest` or unset. -/
theorem recombine_c8_build (compileOk : String → Bool) (c : RecombineConfig)
    (hcomp : ∀ s, compileOk s = true) :
    ((∃ op1, buildRecombine true compileOk c = .ok [op1]) ↔
       ((c.isFirstEntry = "" ↔ ¬ c.isLastEntry = "") ∧
        c.combineFieldPresent = true ∧
        (c.overwriteWith = "oldest" ∨ c.overwriteWith = "newest" ∨
         c.overwriteWith = ""))) ∧
    (∀ ops, buildRecombine true compileOk c = .ok ops → ops.length = 1) ∧
    (∀ op1, buildRecombine true compileOk c = .ok [op1] →
       (op1.overwriteWithOldest = true ↔
        (c.overwriteWith = "oldest" ∨ c.overwriteWith = ""))) := by
  by_cases hF : c.isFirstEntry = "" <;> by_cases hL : c.isLastEntry = ""
  · simp [buildRecombine, hF, hL]
  · simp [buildRecombine, hF, hL, hcomp, buildRecombineRest]
    cases hP : c.combineFieldPresent with
    | false => simp [hP]
    | true =>
        simp only [hP]
        by_cases hN : c.overwriteWith = "newest"
        · simp [hN]
        · by_cases hO : c.overwriteWith = "oldest"
          · simp [hN, hO]
          · by_cases hE : c.overwriteWith = ""
            · simp [hN, hO, hE]
            · simp [hN, hO, hE]
  · simp [buildRecombine, hF, hL, hcomp, buildRecombineRest]
    cases hP : c.combineFieldPresent with
    | false => simp [hP]
    | true =>
        simp only [hP]
        by_cases hN : c.overwriteWith = "newest"
        · simp [hN]
        · by_cases hO : c.overwriteWith = "oldest"
          · simp [hN, hO]
          · by_cases hE : c.overwriteWith = ""
            · simp [hN, hO, hE]
            · simp [hN, hO, hE]
  · simp [buildRecombine, hF, hL]

/-- Closed witness for `recombine_c8_build`: the valid configuration
`c8Good` builds exactly one operator. -/
theorem recombine_c8_build_witness :
    ∃ op1, buildRecombine true (fun _ => true) c8Good = .ok [op1] :=
  ((recombine_c8_build (fun _ => true) c8Good (fun _ => rfl)).1).mpr
    (by refine ⟨by decide, by decide, ?_⟩; right; right; rfl)

/-- Processing a concatenation processes the parts in sequence. -/
theorem processList_append (op : ROp) :
    ∀ (l1 l2 : List REntry) (m : BatchMap),
      processList op m (l1 ++ l2) =
        ((processList op (processList op m l1).1 l2).1,
         (processList op m l1).2 ++
           (processList op (processList op m l1).1 l2).2) := by
  intro l1
  induction l1 with
  | nil => intro l2 m; simp [processList]
  | cons e rest ih =>
      intro l2 m
      rw [List.cons_append]
      simp only [processList]
      rw [ih]
      simp [List.append_assoc]

/-- Appending a non-matching entry of the buffered source, under the
batch-size limit, only extends the batch. -/
theorem processList_tail (op : ROp) (s : String)
    (hmf : op.matchFirstLine = true) :
    ∀ (tail buf : List REntry),
      (∀ e ∈ tail, e.exprRes = some false ∧ sourceOf e = s) →
      buf.length + tail.length < op.maxBatchSize →
      processList op [(s, buf)] tail = ([(s, buf ++ tail)], []) := by
  intro tail
  induction tail with
  | nil => intro buf _ _; simp [processList]
  | cons e rest ih =>
      intro buf hall hlen
      obtain ⟨hex, hsrc⟩ := hall e (List.mem_cons_self _ _)
      have hcont : containsB [(s, buf)] s = true := by simp [containsB]
      have hlook : lookupB [(s, buf)] s = buf := by simp [lookupB]
      have hupd : updateB [(s, buf)] s (buf ++ [e]) = [(s, buf ++ [e])] := by
        simp [updateB]
      have hlen2 : buf.length + rest.length + 1 < op.maxBatchSize := by
        simp only [List.length_cons] at hlen
        omega
      have hnotrig : ¬ op.maxBatchSize ≤ (buf ++ [e]).length := by
        simp only [List.length_append, List.length_cons, List.length_nil]
        omega
      have hadd : addToBatch op [(s, buf)] e s = ([(s, buf ++ [e])], []) := by
        unfold addToBatch
        rw [hcont]
        rw [if_neg (by simp)]
        rw [hlook, hupd]
        rw [if_neg hnotrig]
      have hstep : processEntry op [(s, buf)] e =
          ⟨[(s, buf ++ [e])], [], false⟩ := by
        simp only [processEntry, hex]
        rw [if_neg (by simp), if_neg (by simp)]
        rw [hsrc, hadd]
      simp only [processList, hstep]
      rw [ih (buf ++ [e]) (fun x hx => hall x (List.mem_cons_of_mem _ hx))
        (by simp only [List.length_append, List.length_cons,
              List.length_nil]; omega)]
      simp

/-- A matching entry processed while a batch of its source is buffered
flushes the combined batch and starts a new batch with the entry. -/
theorem processEntry_head (op : ROp) (s : String) (e b0 : REntry)
    (brest : List REntry)
    (hmf : op.matchFirstLine = true) (how : op.overwriteWithOldest = true)
    (hms : 2 ≤ op.maxSources)
    (hex : e.exprRes = some true) (hsrc : sourceOf e = s)
    (hset : b0.setOk = true) :
    processEntry op [(s, b0 :: brest)] e =
      ⟨[(s, [e])],
       [{ b0 with readField := some (recombineJoin op (b0 :: brest)) }],
       false⟩ := by
  have hlook : lookupB [(s, b0 :: brest)] s = b0 :: brest := by simp [lookupB]
  have hflush : flushSource op [(s, b0 :: brest)] s =
      .ok ([], [{ b0 with
            readField := some (recombineJoin op (b0 :: brest)) }]) := by
    unfold flushSource
    rw [hlook]
    simp [how, hset, eraseB]
  have hadd : addToBatch op ([] : BatchMap) e s = ([(s, [e])], []) := by
    unfold addToBatch
    rw [if_pos (by simp [containsB])]
    rw [if_neg (by simp [insertB]; omega)]
    rfl
  simp only [processEntry, hex, hmf]
  rw [if_pos (by simp)]
  rw [hsrc, hflush]
  simp [hadd]

/-- A matching entry processed on a fresh or just-flushed map starts a
new batch with the entry and emits nothing. -/
theorem processEntry_head_empty (op : ROp) (s : String) (e : REntry)
    (hmf : op.matchFirstLine = true) (hms : 2 ≤ op.maxSources)
    (hex : e.exprRes = some true) (hsrc : sourceOf e = s) :
    processEntry op [] e = ⟨[(s, [e])], [], false⟩ := by
  have hadd : addToBatch op ([] : BatchMap) e s = ([(s, [e])], []) := by
    unfold addToBatch
    rw [if_pos (by simp [containsB])]
    rw [if_neg (by simp [insertB]; omega)]
    rfl
  simp only [processEntry, hex, hmf]
  rw [if_pos (by simp)]
  rw [hsrc]
  have hflush : flushSource op ([] : BatchMap) s = .ok ([], []) := rfl
  rw [hflush]
  simp [hadd]

/-- Core correspondence for first-line-mode processing: with a
non-empty well-read batch buffered, processing a concatenation of
runs (each starting with a match, continuing without matches, below
the batch-size limit) emits exactly one spec-combined Entry per run
boundary and leaves the final run buffered. -/
theorem processList_runs (op : ROp) (s : String)
    (hmf : op.matchFirstLine = true) (how : op.overwriteWithOldest = true)
    (hms : 2 ≤ op.maxSources) :
    ∀ (runs : List (List REntry)) (buf : List REntry),
      buf ≠ [] →
      (∀ x ∈ buf, x.setOk = true) →
      (∀ x ∈ buf, x.readField.isSome = true) →
      (∀ r ∈ runs, r ≠ []) →
      (∀ r ∈ runs, r.length < op.maxBatchSize) →
      (∀ r ∈ runs, ∀ x ∈ r.take 1, x.exprRes = some true) →
      (∀ r ∈ runs, ∀ x ∈ r.drop 1, x.exprRes = some false) →
      (∀ r ∈ runs, ∀ x ∈ r, sourceOf x = s) →
      (∀ r ∈ runs, ∀ x ∈ r, x.setOk = true) →
      (∀ r ∈ runs, ∀ x ∈ r, x.readField.isSome = true) →
      processList op [(s, buf)] runs.flatten =
        ([(s, (buf :: runs).getLastD [])],
         ((buf :: runs).dropLast).flatMap (oldestCombined op)) := by
  intro runs
  induction runs with
  | nil =>
      intro buf _ _ _ _ _ _ _ _ _ _
      simp [processList]
  | cons r rs ih =>
      intro buf hbne hbset hbread hne hlen hhead htail hsrc hset hread
      obtain ⟨h0, t, rfl⟩ : ∃ h0 t, r = h0 :: t := by
        cases r with
        | nil => exact absurd rfl (hne [] (List.mem_cons_self _ _))
        | cons a b => exact ⟨a, b, rfl⟩
      obtain ⟨b0, brest, rfl⟩ : ∃ b0 brest, buf = b0 :: brest := by
        cases buf with
        | nil => exact absurd rfl hbne
        | cons a b => exact ⟨a, b, rfl⟩
      have hrmem : (h0 :: t) ∈ (h0 :: t) :: rs := List.mem_cons_self _ _
      have hstep := processEntry_head op s h0 b0 brest hmf how hms
        (hhead _ hrmem h0 (by simp))
        (hsrc _ hrmem h0 (List.mem_cons_self _ _))
        (hbset b0 (List.mem_cons_self _ _))
      have htailrun : processList op [(s, [h0])] t = ([(s, h0 :: t)], []) := by
        rw [processList_tail op s hmf t [h0]
          (fun x hx => ⟨htail _ hrmem x (by simpa using hx),
                        hsrc _ hrmem x (List.mem_cons_of_mem _ hx)⟩)
          (by have := hlen _ hrmem
              simp only [List.length_cons, List.length_nil] at this ⊢
              omega)]
        simp
      have h1 : processList op [(s, b0 :: brest)] (h0 :: t) =
          ([(s, h0 :: t)],
           [{ b0 with
              readField := some (recombineJoin op (b0 :: brest)) }]) := by
        simp only [processList, hstep]
        rw [htailrun]
        simp
      rw [List.flatten_cons, processList_append, h1]
      have ih2 := ih (h0 :: t) (by simp)
        (hset _ hrmem) (hread _ hrmem)
        (fun x hx => hne x (List.mem_cons_of_mem _ hx))
        (fun x hx => hlen x (List.mem_cons_of_mem _ hx))
        (fun x hx => hhead x (List.mem_cons_of_mem _ hx))
        (fun x hx => htail x (List.mem_cons_of_mem _ hx))
        (fun x hx => hsrc x (List.mem_cons_of_mem _ hx))
        (fun x hx => hset x (List.mem_cons_of_mem _ hx))
        (fun x hx => hread x (List.mem_cons_of_mem _ hx))
      rw [ih2]
      have hjoin : recombineJoin op (b0 :: brest) = specJoin op (b0 :: brest) :=
        recombineJoin_eq_specJoin op _ hbread
      rw [hjoin]
      simp [List.getLastD_cons, List.flatMap_cons, oldestCombined]

/-- Claim C2 (confirmed): feeding a single-source sequence that
decomposes into maximal runs — each starting with a predicate match
and continuing without matches — to a first-line-mode recombiner with
`overwrite_with=oldest` (limits unreached, all reads and sets
succeeding, no ticker flush or Stop) emits exactly one combined Entry
per run at the arrival of the next run's head: the emitted Entry keeps
the identity of the run's first entry and carries the
`combine_with`-join of the run's combine-field values; the final run
remains buffered (as in the claim's example, where `A2` stays
buffered). -/
theorem recombine_c2_runs_emission (op : ROp) (s : String)
    (runs : List (List REntry))
    (hmf : op.matchFirstLine = true) (how : op.overwriteWithOldest = true)
    (hms : 2 ≤ op.maxSources)
    (hne : ∀ r ∈ runs, r ≠ [])
    (hlen : ∀ r ∈ runs, r.length < op.maxBatchSize)
    (hhead : ∀ r ∈ runs, ∀ x ∈ r.take 1, x.exprRes = some true)
    (htail : ∀ r ∈ runs, ∀ x ∈ r.drop 1, x.exprRes = some false)
    (hsrc : ∀ r ∈ runs, ∀ x ∈ r, sourceOf x = s)
    (hset : ∀ r ∈ runs, ∀ x ∈ r, x.setOk = true)
    (hread : ∀ r ∈ runs, ∀ x ∈ r, x.readField.isSome = true) :
    processList op [] runs.flatten =
      ((if runs.isEmpty then ([] : BatchMap) else [(s, runs.getLastD [])]),
       (runs.dropLast).flatMap (oldestCombined op)) := by
  cases runs with
  | nil => simp [processList]
  | cons r rs =>
      obtain ⟨h0, t, rfl⟩ : ∃ h0 t, r = h0 :: t := by
        cases r with
        | nil => exact absurd rfl (hne [] (List.mem_cons_self _ _))
        | cons a b => exact ⟨a, b, rfl⟩
      have hrmem : (h0 :: t) ∈ (h0 :: t) :: rs := List.mem_cons_self _ _
      have hstep := processEntry_head_empty op s h0 hmf hms
        (hhead _ hrmem h0 (by simp))
        (hsrc _ hrmem h0 (List.mem_cons_self _ _))
      have htailrun : processList op [(s, [h0])] t = ([(s, h0 :: t)], []) := by
        rw [processList_tail op s hmf t [h0]
          (fun x hx => ⟨htail _ hrmem x (by simpa using hx),
                        hsrc _ hrmem x (List.mem_cons_of_mem _ hx)⟩)
          (by have := hlen _ hrmem
              simp only [List.length_cons, List.length_nil] at this ⊢
              omega)]
        simp
      have h1 : processList op [] (h0 :: t) = ([(s, h0 :: t)], []) := by
        simp only [processList, hstep]
        rw [htailrun]
        simp
      rw [List.flatten_cons, processList_append, h1]
      rw [processList_runs op s hmf how hms rs (h0 :: t) (by simp)
        (hset _ hrmem) (hread _ hrmem)
        (fun x hx => hne x (List.mem_cons_of_mem _ hx))
        (fun x hx => hlen x (List.mem_cons_of_mem _ hx))
        (fun x hx => hhead x (List.mem_cons_of_mem _ hx))
        (fun x hx => htail x (List.mem_cons_of_mem _ hx))
        (fun x hx => hsrc x (List.mem_cons_of_mem _ hx))
        (fun x hx => hset x (List.mem_cons_of_mem _ hx))
        (fun x hx => hread x (List.mem_cons_of_mem _ hx))]
      simp [List.getLastD_cons]

/-- Closed witness for `recombine_c2_runs_emission`: the spec's
scenario 5 — bodies A1, x, y, A2 under one source — emits exactly one
Entry, with A1's identity and body join, at A2's arrival, while A2
remains buffered. -/
theorem recombine_c2_runs_emission_witness :
    processList c2Op [] [c2A1, c2x, c2y, c2A2] =
      ([("f", [c2A2])], [{ c2A1 with readField := some "A1\nx\ny" }]) := by
  have h := recombine_c2_runs_emission c2Op "f" [[c2A1, c2x, c2y], [c2A2]]
    rfl rfl (by decide) (by decide) (by decide) (by decide) (by decide)
    (by decide) (by decide) (by decide)
  exact h.trans (by decide)

/-- Every key of the batch map holds a non-empty batch whose entries
are a subsequence (arrival order) of the processed entries. -/
def BatchNES (es : List REntry) (m : BatchMap) : Prop :=
  ∀ p ∈ m, p.2 ≠ [] ∧ p.2.Sublist es

/-- Every batch is within the given length bound. -/
def BatchBounded (k : Nat) (m : BatchMap) : Prop :=
  ∀ p ∈ m, p.2.length ≤ k

/-- Erasure only drops pairs. -/
theorem mem_eraseB {m : BatchMap} {s : String} {p : String × List REntry}
    (h : p ∈ eraseB m s) : p ∈ m :=
  (List.mem_filter.mp h).1

/-- Erasure drops exactly the pairs under the erased key. -/
theorem mem_eraseB_ne {m : BatchMap} {s : String} {p : String × List REntry}
    (h : p ∈ eraseB m s) : ¬ p.1 = s := by
  have := (List.mem_filter.mp h).2
  simpa using this

/-- An updated map holds the new pair or an old one. -/
theorem mem_updateB {m : BatchMap} {s : String} {b : List REntry}
    {p : String × List REntry} (h : p ∈ updateB m s b) :
    p = (s, b) ∨ p ∈ m := by
  unfold updateB at h
  obtain ⟨q, hq, hqe⟩ := List.mem_map.mp h
  by_cases hk : q.1 = s
  · rw [if_pos hk] at hqe
    exact Or.inl hqe.symm
  · rw [if_neg hk] at hqe
    exact Or.inr (hqe ▸ hq)

/-- A key that is contained locates its batch in the map. -/
theorem containsB_lookupB_mem :
    ∀ (m : BatchMap) (s : String), containsB m s = true →
      (s, lookupB m s) ∈ m := by
  intro m
  induction m with
  | nil => intro s h; cases h
  | cons q rest ih =>
      intro s h
      by_cases hk : q.1 = s
      · have hl : lookupB (q :: rest) s = q.2 := by
          simp [lookupB, List.find?_cons, hk]
        rw [hl]
        have : (s, q.2) = q := by
          rw [← hk]
        rw [this]
        exact List.mem_cons_self _ _
      · have hrest : containsB rest s = true := by
          simp [containsB] at h ⊢
          rcases h with h1 | h2
          · exact absurd h1 hk
          · exact h2
        have hl : lookupB (q :: rest) s = lookupB rest s := by
          simp [lookupB, List.find?_cons, hk]
        rw [hl]
        exact List.mem_cons_of_mem _ (ih s hrest)

/-- Reading back an updated key yields the new batch. -/
theorem lookupB_updateB :
    ∀ (m : BatchMap) (s : String) (b : List REntry), containsB m s = true →
      lookupB (updateB m s b) s = b := by
  intro m
  induction m with
  | nil => intro s b h; cases h
  | cons q rest ih =>
      intro s b h
      by_cases hk : q.1 = s
      · simp [updateB, lookupB, List.find?_cons, hk]
      · have hrest : containsB rest s = true := by
          simp [containsB] at h ⊢
          rcases h with h1 | h2
          · exact absurd h1 hk
          · exact h2
        have hstep : lookupB (updateB (q :: rest) s b) s =
            lookupB (updateB rest s b) s := by
          simp [lookupB, updateB, List.find?_cons, hk]
        rw [hstep]
        exact ih s b hrest

/-- The default-carrying last element of a batch is one of its
entries or the default. -/
theorem getLastD_mem_cons {α : Type _} :
    ∀ (l : List α) (a : α), l.getLastD a ∈ a :: l := by
  intro l
  induction l with
  | nil => intro a; simp [List.getLastD]
  | cons b t ih =>
      intro a
      rw [List.getLastD_cons]
      exact List.mem_cons_of_mem _ (ih b)

/-- Evaluation of `flushSource` on an empty or absent batch. -/
theorem flushSource_eval_nil (op : ROp) (m : BatchMap) (s : String)
    (hl : lookupB m s = []) : flushSource op m s = .ok (m, []) := by
  unfold flushSource
  rw [hl]

/-- Evaluation of `flushSource` on a non-empty batch. -/
theorem flushSource_eval_cons (op : ROp) (m : BatchMap) (s : String)
    (e0 : REntry) (rest : List REntry) (hl : lookupB m s = e0 :: rest) :
    flushSource op m s =
      (if (if op.overwriteWithOldest then e0
           else (e0 :: rest).getLastD e0).setOk
       then .ok (eraseB m s,
         [{ (if op.overwriteWithOldest then e0
             else (e0 :: rest).getLastD e0) with
            readField := some (recombineJoin op (e0 :: rest)) }])
       else .error ()) := by
  unfold flushSource
  rw [hl]

/-- A successful flush leaves either the same map (empty batch) or the
map with the key erased. -/
theorem flushSource_map_cases (op : ROp) (m : BatchMap) (s : String)
    (r : BatchMap × List REntry) (h : flushSource op m s = .ok r) :
    r.1 = m ∨ r.1 = eraseB m s := by
  cases hl : lookupB m s with
  | nil =>
      rw [flushSource_eval_nil op m s hl] at h
      cases h
      exact Or.inl rfl
  | cons e0 rest =>
      rw [flushSource_eval_cons op m s e0 rest hl] at h
      by_cases hset : (if op.overwriteWithOldest then e0
          else (e0 :: rest).getLastD e0).setOk = true
      · rw [if_pos hset] at h
        cases h
        exact Or.inr rfl
      · rw [if_neg hset] at h
        exact Except.noConfusion h

/-- A non-empty batch whose base's combine-field `Set` succeeds is
flushed atomically: one combined emission, key removed, in one step. -/
theorem flushSource_ok_of_setOk (op : ROp) (m : BatchMap) (s : String)
    (hne : lookupB m s ≠ [])
    (hall : ∀ x ∈ lookupB m s, x.setOk = true) :
    ∃ em, flushSource op m s = .ok (eraseB m s, [em]) := by
  cases hl : lookupB m s with
  | nil => exact absurd hl hne
  | cons e0 rest =>
      have hbase : (if op.overwriteWithOldest then e0
          else (e0 :: rest).getLastD e0).setOk = true := by
        by_cases how : op.overwriteWithOldest = true
        · rw [how, if_pos rfl]
          exact hall e0 (by rw [hl]; exact List.mem_cons_self _ _)
        · rw [if_neg (by simpa using how)]
          have hm := getLastD_mem_cons (e0 :: rest) e0
          rcases List.mem_cons.mp hm with h1 | h2
          · rw [h1]
            exact hall e0 (by rw [hl]; exact List.mem_cons_self _ _)
          · exact hall _ (by rw [hl]; exact h2)
      refine ⟨{ (if op.overwriteWithOldest then e0
                 else (e0 :: rest).getLastD e0) with
                readField := some (recombineJoin op (e0 :: rest)) }, ?_⟩
      rw [flushSource_eval_cons op m s e0 rest hl, if_pos hbase]

/-- Batch invariants are monotone in the processed-entry list. -/
theorem BatchNES_mono {es es2 : List REntry} {m : BatchMap}
    (h : BatchNES es m) (hsub : es.Sublist es2) : BatchNES es2 m :=
  fun p hp => ⟨(h p hp).1, (h p hp).2.trans hsub⟩

/-- A successful flush preserves the non-empty/ordered invariant. -/
theorem BatchNES_flushOk {op : ROp} {es : List REntry} {m : BatchMap}
    {s : String} {r : BatchMap × List REntry}
    (h : BatchNES es m) (hf : flushSource op m s = .ok r) :
    BatchNES es r.1 := by
  rcases flushSource_map_cases op m s r hf with h1 | h1
  · rw [h1]; exact h
  · rw [h1]; exact fun p hp => h p (mem_eraseB hp)

/-- `addToBatch` preserves the non-empty/ordered invariant. -/
theorem BatchNES_addToBatch (op : ROp) {es : List REntry} {m : BatchMap}
    (e : REntry) (s : String) (h : BatchNES es m) :
    BatchNES (es ++ [e]) (addToBatch op m e s).1 := by
  have h' : BatchNES (es ++ [e]) m :=
    BatchNES_mono h (List.sublist_append_left es [e])
  unfold addToBatch
  by_cases hc : containsB m s = true
  · rw [hc, if_neg (by simp)]
    have hbufmem := containsB_lookupB_mem m s hc
    have hbufsub : (lookupB m s).Sublist es := (h _ hbufmem).2
    have hm1 : BatchNES (es ++ [e]) (updateB m s (lookupB m s ++ [e])) := by
      intro p hp
      rcases mem_updateB hp with h1 | h1
      · rw [h1]
        exact ⟨by simp, List.Sublist.append hbufsub (List.Sublist.refl [e])⟩
      · exact h' p h1
    by_cases ht : op.maxBatchSize ≤ (lookupB m s ++ [e]).length
    · rw [if_pos ht]
      cases hf : flushSource op (updateB m s (lookupB m s ++ [e])) s with
      | ok r => simp only [hf]; exact BatchNES_flushOk hm1 hf
      | error err => simp only [hf]; exact hm1
    · rw [if_neg ht]
      exact hm1
  · have hcf : containsB m s = false := by simpa using hc
    rw [hcf, if_pos (by simp)]
    by_cases hcap : op.maxSources ≤ (insertB m s [e]).length
    · rw [if_pos hcap]
      intro p hp
      simp [flushUncombined] at hp
    · rw [if_neg hcap]
      intro p hp
      rcases List.mem_append.mp hp with h1 | h1
      · exact h' p h1
      · have hpe : p = (s, [e]) := List.mem_singleton.mp h1
        rw [hpe]
        exact ⟨by simp, List.sublist_append_right es [e]⟩

/-- `addToBatch` keeps batches within `maxBatchSize` when `Set` never
fails on the processed entries and the bound is positive. -/
theorem BatchBounded_addToBatch (op : ROp) {es : List REntry} {m : BatchMap}
    (e : REntry) (s : String)
    (h1 : 1 ≤ op.maxBatchSize)
    (hgood : ∀ x ∈ es ++ [e], x.setOk = true)
    (hnes : BatchNES es m) (hb : BatchBounded op.maxBatchSize m) :
    BatchBounded op.maxBatchSize (addToBatch op m e s).1 := by
  unfold addToBatch
  by_cases hc : containsB m s = true
  · rw [hc, if_neg (by simp)]
    have hbufmem := containsB_lookupB_mem m s hc
    have hbufsub : (lookupB m s).Sublist es := (hnes _ hbufmem).2
    have hgoodbuf : ∀ x ∈ lookupB m s ++ [e], x.setOk = true := by
      intro x hx
      rcases List.mem_append.mp hx with hx1 | hx1
      · exact hgood x (List.mem_append_left _ (hbufsub.subset hx1))
      · exact hgood x (List.mem_append_right _ hx1)
    by_cases ht : op.maxBatchSize ≤ (lookupB m s ++ [e]).length
    · rw [if_pos ht]
      have hlook1 : lookupB (updateB m s (lookupB m s ++ [e])) s =
          lookupB m s ++ [e] := lookupB_updateB m s _ hc
      have hne2 : lookupB (updateB m s (lookupB m s ++ [e])) s ≠ [] := by
        rw [hlook1]; simp
      have hall2 : ∀ x ∈ lookupB (updateB m s (lookupB m s ++ [e])) s,
          x.setOk = true := by
        rw [hlook1]; exact hgoodbuf
      obtain ⟨em, hf⟩ := flushSource_ok_of_setOk op _ s hne2 hall2
      simp only [hf]
      intro p hp
      have hp1 := mem_eraseB hp
      have hpne := mem_eraseB_ne hp
      rcases mem_updateB hp1 with he | he
      · exact absurd (congrArg Prod.fst he) (by simpa using hpne)
      · exact hb p he
    · rw [if_neg ht]
      intro p hp
      rcases mem_updateB hp with he | he
      · rw [he]
        exact Nat.le_of_lt (Nat.lt_of_not_le ht)
      · exact hb p he
  · have hcf : containsB m s = false := by simpa using hc
    rw [hcf, if_pos (by simp)]
    by_cases hcap : op.maxSources ≤ (insertB m s [e]).length
    · rw [if_pos hcap]
      intro p hp
      simp [flushUncombined] at hp
    · rw [if_neg hcap]
      intro p hp
      rcases List.mem_append.mp hp with he | he
      · exact hb p he
      · have hpe : p = (s, [e]) := List.mem_singleton.mp he
        rw [hpe]
        simpa using h1

/-- `Process` preserves the non-empty/ordered invariant. -/
theorem BatchNES_processEntry (op : ROp) {es : List REntry} {m : BatchMap}
    (e : REntry) (h : BatchNES es m) :
    BatchNES (es ++ [e]) (processEntry op m e).m := by
  have h' : BatchNES (es ++ [e]) m :=
    BatchNES_mono h (List.sublist_append_left es [e])
  cases hex : e.exprRes with
  | none =>
      have hev : (processEntry op m e).m = m := by
        unfold processEntry
        simp only [hex]
        split <;> rfl
      rw [hev]
      exact h'
  | some b =>
      by_cases hm : (b = true ∧ op.matchFirstLine = true)
      · cases hf : flushSource op m (sourceOf e) with
        | error err =>
            have hev : (processEntry op m e).m = m := by
              unfold processEntry
              simp only [hex, hf, if_pos hm]
            rw [hev]
            exact h'
        | ok r =>
            obtain ⟨m1, em1⟩ := r
            have hev : (processEntry op m e).m =
                (addToBatch op m1 e (sourceOf e)).1 := by
              unfold processEntry
              simp only [hex, hf, if_pos hm]
            rw [hev]
            exact BatchNES_addToBatch op e _ (BatchNES_flushOk h hf)
      · by_cases hm2 : (b = true ∧ ¬ op.matchFirstLine = true)
        · cases hf : flushSource op (addToBatch op m e (sourceOf e)).1
              (sourceOf e) with
          | error err =>
              have hev : (processEntry op m e).m =
                  (addToBatch op m e (sourceOf e)).1 := by
                unfold processEntry
                simp only [hex, hf, if_neg hm, if_pos hm2]
              rw [hev]
              exact BatchNES_addToBatch op e _ h
          | ok r =>
              obtain ⟨m2, em2⟩ := r
              have hev : (processEntry op m e).m = m2 := by
                unfold processEntry
                simp only [hex, hf, if_neg hm, if_pos hm2]
              rw [hev]
              have := BatchNES_flushOk (BatchNES_addToBatch op e (sourceOf e) h) hf
              exact this
        · have hev : (processEntry op m e).m =
              (addToBatch op m e (sourceOf e)).1 := by
            unfold processEntry
            simp only [hex, if_neg hm, if_neg hm2]
          rw [hev]
          exact BatchNES_addToBatch op e _ h

/-- `Process` keeps batches within `maxBatchSize` when `Set` never
fails on the processed entries and the bound is positive. -/
theorem BatchBounded_processEntry (op : ROp) {es : List REntry} {m : BatchMap}
    (e : REntry)
    (h1 : 1 ≤ op.maxBatchSize)
    (hgood : ∀ x ∈ es ++ [e], x.setOk = true)
    (hnes : BatchNES es m) (hb : BatchBounded op.maxBatchSize m) :
    BatchBounded op.maxBatchSize (processEntry op m e).m := by
  cases hex : e.exprRes with
  | none =>
      have hev : (processEntry op m e).m = m := by
        unfold processEntry
        simp only [hex]
        split <;> rfl
      rw [hev]
      exact hb
  | some b =>
      by_cases hm : (b = true ∧ op.matchFirstLine = true)
      · cases hf : flushSource op m (sourceOf e) with
        | error err =>
            have hev : (processEntry op m e).m = m := by
              unfold processEntry
              simp only [hex, hf, if_pos hm]
            rw [hev]
            exact hb
        | ok r =>
            obtain ⟨m1, em1⟩ := r
            have hev : (processEntry op m e).m =
                (addToBatch op m1 e (sourceOf e)).1 := by
              unfold processEntry
              simp only [hex, hf, if_pos hm]
            rw [hev]
            have hnes1 : BatchNES es m1 := BatchNES_flushOk hnes hf
            have hb1 : BatchBounded op.maxBatchSize m1 := by
              rcases flushSource_map_cases op m _ _ hf with he | he
              · rw [show m1 = m from he]; exact hb
              · rw [show m1 = eraseB m (sourceOf e) from he]
                exact fun p hp => hb p (mem_eraseB hp)
            exact BatchBounded_addToBatch op e _ h1 hgood hnes1 hb1
      · by_cases hm2 : (b = true ∧ ¬ op.matchFirstLine = true)
        · have hb1 := BatchBounded_addToBatch op e (sourceOf e) h1 hgood hnes hb
          cases hf : flushSource op (addToBatch op m e (sourceOf e)).1
              (sourceOf e) with
          | error err =>
              have hev : (processEntry op m e).m =
                  (addToBatch op m e (sourceOf e)).1 := by
                unfold processEntry
                simp only [hex, hf, if_neg hm, if_pos hm2]
              rw [hev]
              exact hb1
          | ok r =>
              obtain ⟨m2, em2⟩ := r
              have hev : (processEntry op m e).m = m2 := by
                unfold processEntry
                simp only [hex, hf, if_neg hm, if_pos hm2]
              rw [hev]
              rcases flushSource_map_cases op _ _ _ hf with he | he
              · rw [show m2 = (addToBatch op m e (sourceOf e)).1 from he]
                exact hb1
              · rw [show m2 = eraseB (addToBatch op m e (sourceOf e)).1
                    (sourceOf e) from he]
                exact fun p hp => hb1 p (mem_eraseB hp)
        · have hev : (processEntry op m e).m =
              (addToBatch op m e (sourceOf e)).1 := by
            unfold processEntry
            simp only [hex, if_neg hm, if_neg hm2]
          rw [hev]
          exact BatchBounded_addToBatch op e (sourceOf e) h1 hgood hnes hb

/-- The ticker loop only flushes: no new pair ever appears. -/
theorem tickFlushGo_mem (op : ROp) (now : Nat) :
    ∀ (l : List (String × List REntry)) (m : BatchMap)
      (p : String × List REntry),
      p ∈ (tickFlushGo op now m l).1 → p ∈ m := by
  intro l
  induction l with
  | nil => intro m p hp; exact hp
  | cons q rest ih =>
      intro m p hp
      obtain ⟨s, entries⟩ := q
      cases hl : entries.getLast? with
      | none =>
          have hev : tickFlushGo op now m ((s, entries) :: rest) =
              tickFlushGo op now m rest := by
            simp only [tickFlushGo, hl]
          rw [hev] at hp
          exact ih m p hp
      | some last =>
          by_cases hcond : (now : Int) - last.ts < op.forceFlushTimeout
          · have hev : tickFlushGo op now m ((s, entries) :: rest) =
                tickFlushGo op now m rest := by
              simp only [tickFlushGo, hl, if_pos hcond]
            rw [hev] at hp
            exact ih m p hp
          · cases hf : flushSource op m s with
            | error err =>
                have hev : tickFlushGo op now m ((s, entries) :: rest) =
                    tickFlushGo op now m rest := by
                  simp only [tickFlushGo, hl, hf, if_neg hcond]
                rw [hev] at hp
                exact ih m p hp
            | ok r =>
                obtain ⟨m1, em⟩ := r
                have hev : tickFlushGo op now m ((s, entries) :: rest) =
                    ((tickFlushGo op now m1 rest).1,
                     em ++ (tickFlushGo op now m1 rest).2) := by
                  simp only [tickFlushGo, hl, hf, if_neg hcond]
                rw [hev] at hp
                have hpm : p ∈ m1 := ih m1 p hp
                rcases flushSource_map_cases op m s _ hf with he | he
                · rw [show m1 = m from he] at hpm
                  exact hpm
                · rw [show m1 = eraseB m s from he] at hpm
                  exact mem_eraseB hpm

/-- The two state invariants hold in every reachable recombiner state
(the length bound under positive `max_batch_size` and always-succeeding
combine-field `Set`). -/
theorem reach_nes_bounded (op : ROp) {m : BatchMap} {es : List REntry}
    (hr : ReachState op m es) :
    BatchNES es m ∧
    (1 ≤ op.maxBatchSize → (∀ x ∈ es, x.setOk = true) →
      BatchBounded op.maxBatchSize m) := by
  induction hr with
  | init =>
      exact ⟨fun p hp => absurd hp (List.not_mem_nil _),
             fun _ _ p hp => absurd hp (List.not_mem_nil _)⟩
  | @step m es e h ih =>
      refine ⟨BatchNES_processEntry op e ih.1, ?_⟩
      intro h1 hgood
      exact BatchBounded_processEntry op e h1 hgood ih.1
        (ih.2 h1 (fun x hx => hgood x (List.mem_append_left _ hx)))
  | @tick m es now h ih =>
      refine ⟨fun p hp => ih.1 p (tickFlushGo_mem op now m m p hp), ?_⟩
      intro h1 hgood
      exact fun p hp => ih.2 h1 hgood p (tickFlushGo_mem op now m m p hp)
  | @stop m es h ih =>
      refine ⟨?_, ?_⟩
      · intro p hp
        simp [flushUncombined] at hp
      · intro _ _ p hp
        simp [flushUncombined] at hp

/-- Claim C6 (corrected), counterexample: with `max_batch_size = 2`
and entries whose combine-field `Set` fails (a nested combine-field
path over string bodies), the batch-size flush errors and the batch is
retained, so after three entries the reachable state holds a batch of
length 3 > max_batch_size — the claimed bound fails at an observable
moment. -/
theorem recombine_c6_counterexample :
    ReachState c6Op c6m3 [c6e 0, c6e 1, c6e 2] ∧
    (lookupB c6m3 "s").length = 3 ∧
    c6Op.maxBatchSize = 2 ∧
    ¬ (lookupB c6m3 "s").length ≤ c6Op.maxBatchSize := by
  refine ⟨?_, by decide, by decide, by decide⟩
  have h0 : ReachState c6Op [] [] := .init
  have h1 := ReachState.step (e := c6e 0) h0
  have h2 := ReachState.step (e := c6e 1) h1
  have h3 := ReachState.step (e := c6e 2) h2
  exact h3

/-- Claim C6 (corrected), amended: at every observable moment (any
reachable batch-map state, between `Process` calls, ticker ticks and
`Stop`), every keyed batch is non-empty and its entries appear in
arrival order (a subsequence of the entries processed so far);
provided `max_batch_size` is positive and the combine-field `Set`
succeeds on every processed entry, every batch also satisfies
`len(batch) ≤ max_batch_size` (a failed `Set` during a size-triggered
flush instead retains the batch, which can then exceed the bound);
and flushing a non-empty batch whose base `Set` succeeds removes the
source key in the same step as the single combined emission. -/
theorem recombine_c6_amended (op : ROp) (m : BatchMap) (es : List REntry)
    (hr : ReachState op m es) :
    (∀ p ∈ m, p.2 ≠ [] ∧ p.2.Sublist es) ∧
    (1 ≤ op.maxBatchSize → (∀ x ∈ es, x.setOk = true) →
       ∀ p ∈ m, p.2.length ≤ op.maxBatchSize) ∧
    (∀ (m2 : BatchMap) (s : String), lookupB m2 s ≠ [] →
       (∀ x ∈ lookupB m2 s, x.setOk = true) →
       ∃ em, flushSource op m2 s = .ok (eraseB m2 s, [em])) := by
  obtain ⟨hnes, hbd⟩ := reach_nes_bounded op hr
  exact ⟨hnes, fun h1 hgood => hbd h1 hgood,
         fun m2 s hne hall => flushSource_ok_of_setOk op m2 s hne hall⟩

/-- Closed witness for `recombine_c6_amended`: in the reachable state
holding exactly the first successfully processed entry, the batch
under its source key is non-empty, in arrival order and within the
bound. -/
theorem recombine_c6_amended_witness :
    ([c1e1] : List REntry) ≠ [] ∧
    ([c1e1] : List REntry).Sublist ([] ++ [c1e1]) :=
  (recombine_c6_amended c1Op (processEntry c1Op [] c1e1).m ([] ++ [c1e1])
    (ReachState.step ReachState.init)).1 ("s1", [c1e1]) (by decide)
